import Mathlib

/-!
A verification development for the routing-framework repository, covering the
CSV graph importer (DataStructures/Graph/Import/CsvImporter.h) and the flow
rendering pipeline (RawData/DrawNetwork.cpp).

Conventions of the embedding:
- C++ doubles are modelled by rationals.  Every concrete numeric fact proved
  below lies in a range where the double computations of the source are exact
  (operands are 32-bit ints, well below 2^53), so the rational value of an
  expression such as 36.0 * length / freeFlowSpeed is the value the C++
  computes and rounds.
- assert failures and divisions by zero are modelled as Option/Except
  failures, since the specification treats the asserted conditions as fatal
  input errors.
- std::unordered_map is modelled by its entry list in insertion order; only
  the entry set is ever used.
-/

namespace RoutingFramework

/-- Rounding half away from zero, the behaviour of C++ std::round: for a
non-negative argument this is the floor of q + 1/2, for a negative argument
the negation of the rounding of -q. -/
def roundHalfAway (q : ℚ) : ℤ :=
  if q < 0 then -⌊1 / 2 - q⌋ else ⌊q + 1 / 2⌋

/-- One row of vertices.csv as read by CsvImporter::nextVertex: the external
vertex id and the two coordinate fields (which C1 and C7 never inspect). -/
structure VertexRow where
  id : Int
  x : ℚ
  y : ℚ
  deriving DecidableEq

/-- The CsvImporter state that vertex import touches: the entries of the
origToNewIds map, kept in insertion order, and the nextVertexId counter.
The constructor initializes the map empty and the counter to 0. -/
structure ImporterState where
  origToNewIds : List (Int × Nat)
  nextVertexId : Nat
  deriving DecidableEq

/-- CsvImporter::nextVertex for one available row: the assert that the
external id is not yet in origToNewIds is modelled as failure (none);
otherwise the row's id is mapped to nextVertexId and the counter is
post-incremented. -/
def nextVertex (st : ImporterState) (r : VertexRow) : Option ImporterState :=
  match st.origToNewIds.lookup r.id with
  | some _ => none
  | none =>
      some { origToNewIds := st.origToNewIds ++ [(r.id, st.nextVertexId)],
             nextVertexId := st.nextVertexId + 1 }

/-- Repeated calls of nextVertex consuming a list of rows, starting from a
given state. -/
def importVerticesFrom (st : ImporterState) : List VertexRow → Option ImporterState
  | [] => some st
  | r :: rs =>
    match nextVertex st r with
    | none => none
    | some st₂ => importVerticesFrom st₂ rs

/-- A full vertex-import pass: every call of nextVertex consumed until it
returns false, starting from the constructor's initial state. -/
def importVertices (rows : List VertexRow) : Option ImporterState :=
  importVerticesFrom { origToNewIds := [], nextVertexId := 0 } rows

/-- The error kinds of edge import named by the specification. -/
inductive ImportError where
  | negativeField
  | malformedNumber
  | unresolvedEndpoint
  deriving DecidableEq

/-- One row of edges.csv.  The length and speed columns are read as raw text
and parsed by lexicalCast inside nextEdge; a field whose parse fails is
modelled as none. -/
structure EdgeRow where
  tail : Int
  head : Int
  lengthField : Option ℚ
  capacity : Int
  speedField : Option Int
  deriving DecidableEq

/-- The EdgeRecord produced by a successful nextEdge: tail and head already
remapped to internal ids. -/
structure EdgeRecord where
  tail : Nat
  head : Nat
  length : Int
  capacity : Int
  freeFlowSpeed : Int
  deriving DecidableEq

/-- CsvImporter::nextEdge for one available row, with the source's order of
operations: the capacity assert, then the speed parse and its assert, then
the two endpoint-resolution asserts against origToNewIds, then the length
parse, std::round, and the length assert. -/
def nextEdge (m : List (Int × Nat)) (r : EdgeRow) : Except ImportError EdgeRecord :=
  if r.capacity < 0 then .error .negativeField
  else
    match r.speedField with
    | none => .error .malformedNumber
    | some s =>
      if s < 0 then .error .negativeField
      else
        match m.lookup r.tail with
        | none => .error .unresolvedEndpoint
        | some t =>
          match m.lookup r.head with
          | none => .error .unresolvedEndpoint
          | some h =>
            match r.lengthField with
            | none => .error .malformedNumber
            | some lq =>
              if roundHalfAway lq < 0 then .error .negativeField
              else .ok { tail := t, head := h, length := roundHalfAway lq,
                         capacity := r.capacity, freeFlowSpeed := s }

/-- The configuration a CsvImporter stores.  The C++ member analysisPeriod
has type const int although the constructor parameter has type double, so
the parameter is truncated on initialization. -/
structure CsvImporterConfig where
  analysisPeriod : Int
  deriving DecidableEq

/-- The CsvImporter constructor: asserts analysisPeriod > 0 on the double
parameter (modelled as failure when violated) and stores its int truncation;
for a positive argument truncation towards zero is the floor. -/
def mkCsvImporter (ap : ℚ) : Option CsvImporterConfig :=
  if 0 < ap then some { analysisPeriod := ⌊ap⌋ } else none

/-- getValue for CapacityAttribute: std::round(1.0 * capacity /
analysisPeriod) with the stored int analysisPeriod.  When the stored int is
zero — which the constructor permits for 0 < parameter < 1 — the C++ divides
by zero; modelled as none. -/
def capacityValue (capacity analysisPeriod : Int) : Option Int :=
  if analysisPeriod = 0 then none
  else some (roundHalfAway ((capacity : ℚ) / (analysisPeriod : ℚ)))

/-- getValue for TravelTimeAttribute: std::round(36.0 * length /
freeFlowSpeed).  A zero free-flow speed divides by zero; modelled as none. -/
def travelTimeValue (length freeFlowSpeed : Int) : Option Int :=
  if freeFlowSpeed = 0 then none
  else some (roundHalfAway (36 * (length : ℚ) / (freeFlowSpeed : ℚ)))

/-- Modelled from the spec: the size of the REDS_9CLASS palette used by
DrawNetwork.cpp.  The palette itself lives in Visualization/Color.h, which is
not among the sources; a 9-class ColorBrewer palette has 9 colors, matching
the spec's description of a fixed palette with fixed-width 20% steps whose
congestionLevels array has one band per usable color. -/
def REDS_9CLASS_size : Nat := 9

/-- The congestion level of one edge, DrawNetwork.cpp flow drawing loop:
size_t level = 100 / 20 * flow / capacity (integer division 100 / 20 = 5,
then double arithmetic, truncated towards zero on conversion to size_t; for
the non-negative flows and positive capacities produced by the reader and
the capacity scaling this truncation is the floor), then clamped by
std::min(level, REDS_9CLASS.size() - 2). -/
def congestionBand (flow capacity : ℚ) : Nat :=
  min (Int.toNat ⌊((100 / 20 : Int) : ℚ) * flow / capacity⌋) (REDS_9CLASS_size - 2)

/-- One row of the flow file: the iteration column and the edge_flow
column. -/
structure FlowRow where
  iteration : Int
  flow : ℚ
  deriving DecidableEq

/-- The single error thrown by the flow reading loop. -/
inductive FlowError where
  | flowFileCorrupt
  deriving DecidableEq

/-- The state of the flow-file reading loop of DrawNetwork.cpp: the edgeFlows
vector, the prevIteration counter (initialized to 1), and the value left in
the iteration variable by the last successful read (the C++ declares it
uninitialized; the model starts it at 0, a choice no nonempty table
depends on). -/
structure FlowReadState where
  edgeFlows : List ℚ
  prevIteration : Int
  lastIteration : Int
  deriving DecidableEq

/-- One pass of the reading loop body: throw on a non-positive iteration or
negative flow; when the row's iteration differs from prevIteration check that
edgeFlows holds exactly prevIteration * numEdges entries and increment
prevIteration; then push the flow. -/
def readFlowStep (numEdges : Nat) (st : FlowReadState) (r : FlowRow) :
    Except FlowError FlowReadState :=
  if r.iteration ≤ 0 ∨ r.flow < 0 then .error .flowFileCorrupt
  else if r.iteration ≠ st.prevIteration then
    if (st.edgeFlows.length : Int) ≠ st.prevIteration * numEdges then .error .flowFileCorrupt
    else .ok { edgeFlows := st.edgeFlows ++ [r.flow],
               prevIteration := st.prevIteration + 1,
               lastIteration := r.iteration }
  else .ok { edgeFlows := st.edgeFlows ++ [r.flow],
             prevIteration := st.prevIteration,
             lastIteration := r.iteration }

/-- The whole reading loop over the rows of the flow file. -/
def readFlowRows (numEdges : Nat) : FlowReadState → List FlowRow → Except FlowError FlowReadState
  | st, [] => .ok st
  | st, r :: rs =>
    match readFlowStep numEdges st r with
    | .error e => .error e
    | .ok st₂ => readFlowRows numEdges st₂ rs

/-- The flow reading phase: run the loop from the initial state, then apply
the final edgeFlows.size() == iteration * numEdges check.  Returns the flow
vector together with the final iteration number. -/
def readFlowFile (numEdges : Nat) (rows : List FlowRow) :
    Except FlowError (List ℚ × Int) :=
  match readFlowRows numEdges { edgeFlows := [], prevIteration := 1, lastIteration := 0 } rows with
  | .error e => .error e
  | .ok st =>
    if (st.edgeFlows.length : Int) ≠ st.lastIteration * numEdges then .error .flowFileCorrupt
    else .ok (st.edgeFlows, st.lastIteration)

/-- Capacity scaling before flow drawing, DrawNetwork.cpp:
capacity(e) = std::max(std::round(period * capacity(e)), 1.0). -/
def scaleCapacity (period : ℚ) (c : Int) : Int :=
  max (roundHalfAway (period * (c : ℚ))) 1

/-- The drawing commands DrawNetwork issues through the graphic backend while
rendering flow patterns. -/
inductive Event where
  | newPage
  | setColor (band : Nat)
  | drawEdge (e : Nat)
  deriving DecidableEq

/-- Discriminates the color commands among the events. -/
def isColorCmd : Event → Bool
  | Event.setColor _ => true
  | _ => false

/-- The congestion band of edge e in the iteration whose rows start at
firstEdge: the edge's flow is edgeFlows[firstEdge + edgeId(e)] and its
capacity the scaled capacity of e. -/
def edgeBand (caps : List Int) (flows : List ℚ) (firstEdge e : Nat) : Nat :=
  congestionBand (flows.getD (firstEdge + e) 0) ((caps.getD e 0 : Int) : ℚ)

/-- The drawing commands of one flow pattern: edges are bucketed into
congestionLevels in edge order, then for each band j in increasing order one
setColor(REDS_9CLASS[j + 1]) is issued followed by the draw of every edge of
that band.  The congestionLevels array has REDS_9CLASS.size() - 1 bands. -/
def iterEvents (numEdges : Nat) (caps : List Int) (flows : List ℚ) (firstEdge : Nat) :
    List Event :=
  (List.range (REDS_9CLASS_size - 1)).flatMap fun j =>
    Event.setColor j ::
      ((List.range numEdges).filter fun e => edgeBand caps flows firstEdge e == j).map
        Event.drawEdge

/-- Whether the flow pattern of (1-based) iteration i is drawn: all
iterations with -i, otherwise only the first and the last one. -/
def renderedIter (drawIntermediates : Bool) (last i : Nat) : Bool :=
  drawIntermediates || i == 1 || i == last

/-- The iteration numbers 1, …, last visited by the flow drawing loop. -/
def iterList (last : Nat) : List Nat :=
  (List.range last).map (· + 1)

/-- The stream of drawing commands of the whole flow drawing loop: for every
drawn iteration other than the first a newPage, followed by the iteration's
banded edge drawing; skipped iterations contribute nothing. -/
def flowEvents (numEdges : Nat) (caps : List Int) (flows : List ℚ)
    (drawIntermediates : Bool) (last : Nat) : List Event :=
  (iterList last).flatMap fun i =>
    if renderedIter drawIntermediates last i then
      (if i ≠ 1 then [Event.newPage] else []) ++
        iterEvents numEdges caps flows ((i - 1) * numEdges)
    else []

/-- The flow branch of DrawNetwork's main: read the flow patterns, scale the
capacities, and emit the drawing commands.  An error while reading aborts the
run before any capacity scaling or drawing happens, so a failing run
produces no drawing command at all. -/
def renderFlow (numEdges : Nat) (caps : List Int) (period : ℚ)
    (drawIntermediates : Bool) (rows : List FlowRow) : Except FlowError (List Event) :=
  match readFlowFile numEdges rows with
  | .error e => .error e
  | .ok res =>
    .ok (flowEvents numEdges (caps.map (scaleCapacity period)) res.1
          drawIntermediates res.2.toNat)

/-- Three vertex rows with external ids 10, 11, 12, used by concrete
witnesses. -/
def demoVertexRows : List VertexRow :=
  [{ id := 10, x := 0, y := 0 }, { id := 11, x := 0, y := 0 }, { id := 12, x := 0, y := 0 }]

/-- The importer state demoVertexRows imports to. -/
def demoState : ImporterState :=
  { origToNewIds := [(10, 0), (11, 1), (12, 2)], nextVertexId := 3 }

/-- A well-formed edge row between external vertices 10 and 12. -/
def demoEdgeRow : EdgeRow :=
  { tail := 10, head := 12, lengthField := some 100, capacity := 50, speedField := some 30 }

/-- A flow table with one edge whose iteration numbers are 1, 3, 3: iteration
2 is missing and iteration 3 has two rows. -/
def gapRows : List FlowRow :=
  [{ iteration := 1, flow := 0 }, { iteration := 3, flow := 0 }, { iteration := 3, flow := 0 }]

/-- Lookup in an entry list fails exactly for keys that are not present. -/
theorem lookup_none_iff (l : List (Int × Nat)) (a : Int) :
    l.lookup a = none ↔ a ∉ l.map Prod.fst := by
  induction l with
  | nil => simp [List.lookup]
  | cons p l ih =>
    by_cases h : a = p.1
    · simp [List.lookup, h]
    · have hb : (a == p.1) = false := by simp [beq_iff_eq, h]
      simp [List.lookup, hb, ih, h]

/-- A successful lookup returns one of the stored values. -/
theorem lookup_mem_values (l : List (Int × Nat)) (a : Int) (v : Nat)
    (hl : l.lookup a = some v) : v ∈ l.map Prod.snd := by
  induction l with
  | nil => simp [List.lookup] at hl
  | cons p l ih =>
    by_cases hb : (a == p.1) = true
    · simp [List.lookup, hb] at hl
      simp [hl.symm]
    · have hb2 : (a == p.1) = false := by simpa using hb
      simp only [List.lookup, hb2] at hl
      simp [ih hl]

/-- The import invariant: starting from a state whose entry values are
exactly 0, …, nextVertexId - 1 in order and whose keys are distinct, a
successful run of the remaining rows preserves both properties and advances
the counter by the number of rows read. -/
theorem importVerticesFrom_inv (rows : List VertexRow) :
    ∀ st st', importVerticesFrom st rows = some st' →
      st.origToNewIds.map Prod.snd = List.range st.nextVertexId →
      (st.origToNewIds.map Prod.fst).Nodup →
      st'.origToNewIds.map Prod.snd = List.range st'.nextVertexId ∧
      (st'.origToNewIds.map Prod.fst).Nodup ∧
      st'.nextVertexId = st.nextVertexId + rows.length := by
  induction rows with
  | nil =>
    intro st st' h h1 h2
    cases h
    exact ⟨h1, h2, rfl⟩
  | cons r rs ih =>
    intro st st' h h1 h2
    cases hnv : nextVertex st r with
    | none => simp [importVerticesFrom, hnv] at h
    | some st₂ =>
      simp only [importVerticesFrom, hnv] at h
      have hl : st.origToNewIds.lookup r.id = none := by
        cases hl2 : st.origToNewIds.lookup r.id with
        | none => rfl
        | some v => simp [nextVertex, hl2] at hnv
      have hst₂ : st₂ = { origToNewIds := st.origToNewIds ++ [(r.id, st.nextVertexId)],
                          nextVertexId := st.nextVertexId + 1 } := by
        simp [nextVertex, hl] at hnv
        exact hnv.symm
      subst hst₂
      have hnotmem : r.id ∉ st.origToNewIds.map Prod.fst := (lookup_none_iff _ _).mp hl
      have h1' : (st.origToNewIds ++ [(r.id, st.nextVertexId)]).map Prod.snd =
          List.range (st.nextVertexId + 1) := by
        rw [List.map_append, h1, List.range_succ]
        rfl
      have h2' : ((st.origToNewIds ++ [(r.id, st.nextVertexId)]).map Prod.fst).Nodup := by
        rw [List.map_append, List.nodup_append]
        refine ⟨h2, by simp, ?_⟩
        simp only [List.map_cons, List.map_nil]
        intro a ha hb
        simp at hb
        subst hb
        exact hnotmem ha
      obtain ⟨g1, g2, g3⟩ := ih _ _ h h1' h2'
      refine ⟨g1, g2, ?_⟩
      simp only [g3, List.length_cons]
      omega

/-- C1: a fully imported vertex set receives the internal ids 0, …, n-1
exactly (in read order), the external-to-internal mapping has pairwise
distinct keys, i.e. it is a bijection between the external ids read and
the range, and every successful nextVertex call advances the nextVertexId
counter by exactly one, so the counter is strictly increasing across
successive successful calls. -/
theorem nextVertex_import_bijection :
    (∀ rows st, importVertices rows = some st →
      st.origToNewIds.map Prod.snd = List.range rows.length ∧
      (st.origToNewIds.map Prod.fst).Nodup ∧
      st.nextVertexId = rows.length) ∧
    (∀ st r st₂, nextVertex st r = some st₂ →
      st₂.nextVertexId = st.nextVertexId + 1) := by
  constructor
  · intro rows st h
    obtain ⟨g1, g2, g3⟩ := importVerticesFrom_inv rows _ _ h (by simp) (by simp)
    simp only [g3] at g1
    exact ⟨by simpa using g1, g2, by simpa using g3⟩
  · intro st r st₂ h
    cases hl : st.origToNewIds.lookup r.id with
    | none =>
      simp [nextVertex, hl] at h
      rw [← h]
    | some v => simp [nextVertex, hl] at h

/-- Witness for C1 on a concrete three-row import. -/
theorem nextVertex_import_bijection_witness :
    importVertices demoVertexRows = some demoState ∧
    (demoState.origToNewIds.map Prod.snd = List.range demoVertexRows.length ∧
      (demoState.origToNewIds.map Prod.fst).Nodup ∧
      demoState.nextVertexId = demoVertexRows.length) :=
  ⟨by decide, nextVertex_import_bijection.1 demoVertexRows demoState (by decide)⟩

/-- C2: for every edge record with length L and free-flow speed S > 0 the
travel time attribute is exactly round(36 L / S) (round half away from
zero); in particular at L = 3600, S = 60 it is exactly 2160. -/
theorem travelTime_exact_formula :
    (∀ L S : Int, 0 < S →
      travelTimeValue L S = some (roundHalfAway (36 * (L : ℚ) / (S : ℚ)))) ∧
    travelTimeValue 3600 60 = some 2160 := by
  constructor
  · intro L S hS
    have hne : S ≠ 0 := by omega
    simp [travelTimeValue, hne]
  · norm_num [travelTimeValue, roundHalfAway]

/-- Witness for C2 at L = 3600, S = 60. -/
theorem travelTime_exact_formula_witness :
    (0 : Int) < 60 ∧
    travelTimeValue 3600 60 = some (roundHalfAway (36 * ((3600 : Int) : ℚ) / ((60 : Int) : ℚ))) :=
  ⟨by norm_num, travelTime_exact_formula.1 3600 60 (by norm_num)⟩

/-- C3 counterexample: with constructor argument 5/2 and raw capacity 10 the
code stores the truncated analysis period 2 and returns round(10 / 2) = 5,
whereas the claim's round(C / P) = round(10 / (5/2)) is 4. -/
theorem capacityValue_fractional_period_cex :
    mkCsvImporter (5 / 2) = some { analysisPeriod := 2 } ∧
    capacityValue 10 2 = some 5 ∧
    roundHalfAway ((10 : ℚ) / (5 / 2)) = 4 ∧
    (5 : Int) ≠ 4 := by
  refine ⟨?_, ?_, ?_, by norm_num⟩
  · norm_num [mkCsvImporter]
  · norm_num [capacityValue, roundHalfAway]
  · norm_num [roundHalfAway]

/-- C3 amended: the value returned is round(C / ⌊P⌋), with the analysis
period truncated to an int when stored; the claim's round(C / P) holds only
when P is integral.  For 0 < P < 1 the stored period is 0 and the
computation divides by zero. -/
theorem capacityValue_truncated_period :
    ∀ (C : Int) (P : ℚ) (cfg : CsvImporterConfig), mkCsvImporter P = some cfg →
      cfg.analysisPeriod = ⌊P⌋ ∧
      (1 ≤ P → capacityValue C cfg.analysisPeriod =
        some (roundHalfAway ((C : ℚ) / ((⌊P⌋ : Int) : ℚ)))) := by
  intro C P cfg h
  have hpos : 0 < P := by
    by_contra hc
    simp [mkCsvImporter, hc] at h
  have hcfg : cfg = { analysisPeriod := ⌊P⌋ } := by
    simp [mkCsvImporter, hpos] at h
    exact h.symm
  subst hcfg
  refine ⟨rfl, ?_⟩
  intro hP
  have h1 : (1 : Int) ≤ ⌊P⌋ := by
    rw [Int.le_floor]
    exact_mod_cast hP
  have hne : ⌊P⌋ ≠ 0 := by omega
  simp [capacityValue, hne]

/-- Witness for the amended C3 at C = 10, P = 3. -/
theorem capacityValue_truncated_period_witness :
    mkCsvImporter 3 = some { analysisPeriod := 3 } ∧
    (({ analysisPeriod := 3 } : CsvImporterConfig).analysisPeriod = ⌊(3 : ℚ)⌋ ∧
      (1 ≤ (3 : ℚ) → capacityValue 10 ({ analysisPeriod := 3 } : CsvImporterConfig).analysisPeriod =
        some (roundHalfAway ((10 : ℚ) / ((⌊(3 : ℚ)⌋ : Int) : ℚ))))) := by
  have hmk : mkCsvImporter 3 = some { analysisPeriod := 3 } := by
    norm_num [mkCsvImporter]
  exact ⟨hmk, capacityValue_truncated_period 10 3 { analysisPeriod := 3 } hmk⟩

/-- C10: the non-negativity validation of nextEdge admits a speed field that
parses to exactly 0 (the call succeeds and stores freeFlowSpeed = 0), but the
travel time attribute divides by that zero speed and is undefined there; it
is defined exactly under the stronger precondition freeFlowSpeed > 0. -/
theorem zero_speed_accepted_travelTime_undefined :
    nextEdge [(10, 0), (11, 1)]
        { tail := 10, head := 11, lengthField := some 100, capacity := 50, speedField := some 0 } =
      .ok { tail := 0, head := 1, length := 100, capacity := 50, freeFlowSpeed := 0 } ∧
    travelTimeValue 100 0 = none ∧
    (∀ L S : Int, 0 < S → (travelTimeValue L S).isSome) := by
  refine ⟨?_, by simp [travelTimeValue], ?_⟩
  · norm_num [nextEdge, List.lookup, roundHalfAway]
    rfl
  · intro L S hS
    have hne : S ≠ 0 := by omega
    simp [travelTimeValue, hne]

/-- Witness for the quantified part of C10 at L = 100, S = 60. -/
theorem zero_speed_accepted_travelTime_undefined_witness :
    (0 : Int) < 60 ∧ (travelTimeValue 100 60).isSome :=
  ⟨by norm_num, zero_speed_accepted_travelTime_undefined.2.2 100 60 (by norm_num)⟩

/-- C4 counterexample: at flow = capacity the band is 5 = ⌊5 · 1⌋, not the
maximum band 7 = REDS_9CLASS.size() - 2; saturation at the maximum band
starts only at ratio 7/5. -/
theorem congestionBand_not_saturated_at_capacity_cex :
    congestionBand 1 1 = 5 ∧ REDS_9CLASS_size - 2 = 7 ∧ (5 : Nat) ≠ 7 := by
  refine ⟨?_, by norm_num [REDS_9CLASS_size], by norm_num⟩
  norm_num [congestionBand, REDS_9CLASS_size]
  rfl

/-- C4 amended: for fixed positive capacity the band is monotone
non-decreasing in the flow, and it equals the maximum band exactly from
flow ≥ 7/5 · capacity on (ratio ≥ 1.4), not from flow ≥ capacity. -/
theorem congestionBand_monotone_and_saturation :
    ∀ c : ℚ, 0 < c →
      (∀ f1 f2 : ℚ, f1 ≤ f2 → congestionBand f1 c ≤ congestionBand f2 c) ∧
      (∀ f : ℚ, 7 / 5 * c ≤ f → congestionBand f c = REDS_9CLASS_size - 2) := by
  intro c hc
  have hconst : ((100 / 20 : Int) : ℚ) = 5 := by norm_num
  constructor
  · intro f1 f2 h12
    unfold congestionBand
    refine min_le_min ?_ (le_refl _)
    refine Int.toNat_le_toNat (Int.floor_le_floor ?_)
    rw [hconst]
    gcongr
  · intro f hf
    unfold congestionBand
    have h7 : (7 : ℚ) ≤ ((100 / 20 : Int) : ℚ) * f / c := by
      rw [hconst, le_div_iff₀ hc]
      linarith
    have hfl : (7 : Int) ≤ ⌊((100 / 20 : Int) : ℚ) * f / c⌋ := by
      rw [Int.le_floor]
      exact_mod_cast h7
    simp only [REDS_9CLASS_size]
    omega

/-- Witness for the amended C4 with capacity 1, flows 0 ≤ 1 and flow 2. -/
theorem congestionBand_monotone_and_saturation_witness :
    (0 : ℚ) < 1 ∧ congestionBand 0 1 ≤ congestionBand 1 1 ∧
    congestionBand 2 1 = REDS_9CLASS_size - 2 :=
  ⟨by norm_num,
   (congestionBand_monotone_and_saturation 1 (by norm_num)).1 0 1 (by norm_num),
   (congestionBand_monotone_and_saturation 1 (by norm_num)).2 2 (by norm_num)⟩

/-- C7 counterexample: an edge row with an unseen tail and a negative
capacity fails with negative-field, not unresolved-endpoint, because the
capacity assert precedes endpoint resolution. -/
theorem nextEdge_error_order_cex :
    nextEdge []
        { tail := 5, head := 6, lengthField := some 100, capacity := -1, speedField := some 10 } =
      .error .negativeField ∧
    ([] : List (Int × Nat)).lookup (5 : Int) = none ∧
    ImportError.negativeField ≠ ImportError.unresolvedEndpoint := by
  refine ⟨?_, rfl, by decide⟩
  norm_num [nextEdge]

/-- C7 amended: for every edge row passing the numeric validations that
precede endpoint resolution (capacity ≥ 0 and a speed field parsing to a
non-negative integer), an unseen tail or head makes nextEdge fail with
unresolved-endpoint; when both endpoints were seen, resolution succeeds and
the internal tail and head lie in [0, n), and with a non-negative parsed
length the call returns the resolved record.  A row failing an earlier
numeric validation reports that error even if an endpoint is unseen. -/
theorem nextEdge_endpoint_resolution :
    ∀ rows st r s, importVertices rows = some st → 0 ≤ r.capacity →
      r.speedField = some s → 0 ≤ s →
      ((st.origToNewIds.lookup r.tail = none ∨ st.origToNewIds.lookup r.head = none) →
        nextEdge st.origToNewIds r = .error .unresolvedEndpoint) ∧
      (∀ t ht, st.origToNewIds.lookup r.tail = some t →
        st.origToNewIds.lookup r.head = some ht →
        t < rows.length ∧ ht < rows.length ∧
        (∀ lq, r.lengthField = some lq → 0 ≤ roundHalfAway lq →
          nextEdge st.origToNewIds r =
            .ok { tail := t, head := ht, length := roundHalfAway lq,
                  capacity := r.capacity, freeFlowSpeed := s })) := by
  intro rows st r s himp hcap hspeed hs
  have hncap : ¬ (r.capacity < 0) := by omega
  have hns : ¬ (s < 0) := by omega
  have hrange : st.origToNewIds.map Prod.snd = List.range rows.length := by
    obtain ⟨g1, g2, g3⟩ := importVerticesFrom_inv rows _ _ himp (by simp) (by simp)
    rw [g1, g3]
    simp
  constructor
  · intro hun
    rcases hun with htail | hhead
    · simp [nextEdge, hncap, hspeed, hns, htail]
    · cases htl : st.origToNewIds.lookup r.tail with
      | none => simp [nextEdge, hncap, hspeed, hns, htl]
      | some t => simp [nextEdge, hncap, hspeed, hns, htl, hhead]
  · intro t ht htl hhd
    have htmem : t ∈ st.origToNewIds.map Prod.snd := lookup_mem_values _ _ _ htl
    have hhmem : ht ∈ st.origToNewIds.map Prod.snd := lookup_mem_values _ _ _ hhd
    rw [hrange, List.mem_range] at htmem hhmem
    refine ⟨htmem, hhmem, ?_⟩
    intro lq hlq hlen
    have hnlen : ¬ (roundHalfAway lq < 0) := by omega
    simp [nextEdge, hncap, hspeed, hns, htl, hhd, hlq, hnlen]

/-- Witness for the amended C7 on the demo import and a well-formed row. -/
theorem nextEdge_endpoint_resolution_witness :
    importVertices demoVertexRows = some demoState ∧
    (0 : Int) ≤ demoEdgeRow.capacity ∧
    demoEdgeRow.speedField = some 30 ∧
    (0 < demoVertexRows.length ∧ 2 < demoVertexRows.length ∧
      nextEdge demoState.origToNewIds demoEdgeRow =
        .ok { tail := 0, head := 2, length := 100, capacity := demoEdgeRow.capacity,
              freeFlowSpeed := 30 }) := by
  have himp : importVertices demoVertexRows = some demoState := by decide
  have h := (nextEdge_endpoint_resolution demoVertexRows demoState demoEdgeRow 30 himp
    (by decide) rfl (by decide)).2 0 2 (by decide) (by decide)
  have h100 : roundHalfAway 100 = 100 := by norm_num [roundHalfAway]
  refine ⟨himp, by decide, rfl, h.1, h.2.1, ?_⟩
  have hok := h.2.2 100 rfl (by rw [h100]; norm_num)
  rw [hok, h100]

/-- A successful loop body appends exactly the row's flow and certifies the
row's validity checks. -/
theorem readFlowStep_ok (numEdges : Nat) (st st₂ : FlowReadState) (r : FlowRow)
    (h : readFlowStep numEdges st r = .ok st₂) :
    st₂.edgeFlows = st.edgeFlows ++ [r.flow] ∧ 0 < r.iteration ∧ 0 ≤ r.flow := by
  by_cases hgor : r.iteration ≤ 0 ∨ r.flow < 0
  · simp [readFlowStep, hgor] at h
  · rw [not_or] at hgor
    have hit : 0 < r.iteration := by omega
    have hfl : 0 ≤ r.flow := not_lt.mp hgor.2
    have hgor2 : ¬ (r.iteration ≤ 0 ∨ r.flow < 0) := by
      rw [not_or]
      exact ⟨hgor.1, hgor.2⟩
    by_cases hne : r.iteration ≠ st.prevIteration
    · by_cases hlen : (st.edgeFlows.length : Int) ≠ st.prevIteration * numEdges
      · simp [readFlowStep, hgor2, hne, hlen] at h
      · simp only [readFlowStep, if_neg hgor2, if_pos hne, if_neg hlen] at h
        cases h
        exact ⟨rfl, hit, hfl⟩
    · simp only [readFlowStep, if_neg hgor2, if_neg hne] at h
      cases h
      exact ⟨rfl, hit, hfl⟩

/-- A successful run of the reading loop appends exactly the rows' flows in
order and certifies every row's validity checks. -/
theorem readFlowRows_ok_inv (numEdges : Nat) (rows : List FlowRow) :
    ∀ st st', readFlowRows numEdges st rows = .ok st' →
      st'.edgeFlows = st.edgeFlows ++ rows.map FlowRow.flow ∧
      ∀ r ∈ rows, 0 < r.iteration ∧ 0 ≤ r.flow := by
  induction rows with
  | nil =>
    intro st st' h
    cases h
    simp
  | cons r rs ih =>
    intro st st' h
    simp only [readFlowRows] at h
    cases hs : readFlowStep numEdges st r with
    | error e =>
      rw [hs] at h
      cases h
    | ok st₂ =>
      rw [hs] at h
      obtain ⟨he, hit, hfl⟩ := readFlowStep_ok _ _ _ _ hs
      obtain ⟨g1, g2⟩ := ih st₂ st' h
      constructor
      · rw [g1, he]
        simp
      · intro x hx
        rcases List.mem_cons.mp hx with hx | hx
        · subst hx
          exact ⟨hit, hfl⟩
        · exact g2 x hx

/-- Acceptance of a flow table guarantees: the flows are the rows' flows in
order, the total row count equals lastIteration × numEdges, and every row
has a positive iteration and a non-negative flow. -/
theorem readFlowFile_ok_inv (numEdges : Nat) (rows : List FlowRow) (flows : List ℚ)
    (last : Int) (h : readFlowFile numEdges rows = .ok (flows, last)) :
    flows = rows.map FlowRow.flow ∧
    (rows.length : Int) = last * numEdges ∧
    ∀ r ∈ rows, 0 < r.iteration ∧ 0 ≤ r.flow := by
  unfold readFlowFile at h
  cases hr : readFlowRows numEdges
      { edgeFlows := [], prevIteration := 1, lastIteration := 0 } rows with
  | error e =>
    rw [hr] at h
    cases h
  | ok st =>
    rw [hr] at h
    by_cases hlen : (st.edgeFlows.length : Int) ≠ st.lastIteration * numEdges
    · simp [hlen] at h
    · simp only [if_neg hlen] at h
      cases h
      push_neg at hlen
      obtain ⟨g1, g2⟩ := readFlowRows_ok_inv numEdges rows _ _ hr
      simp only [List.nil_append] at g1
      refine ⟨g1, ?_, g2⟩
      rw [← hlen, g1]
      simp

/-- C5: a flow table containing a row with a non-positive iteration number or
a negative flow, or whose total row count is not a multiple of the edge
count, makes the rendering run fail with flow-file-corrupt; since the error
is raised by the reading phase, which precedes capacity scaling and the
drawing loop, no drawing command and no page is produced. -/
theorem corrupt_flow_rejected_before_drawing :
    ∀ (numEdges : Nat) (caps : List Int) (period : ℚ) (drawIntermediates : Bool)
      (rows : List FlowRow),
      ((∃ r ∈ rows, r.iteration ≤ 0) ∨ (∃ r ∈ rows, r.flow < 0) ∨
        ¬ ((numEdges : Int) ∣ (rows.length : Int))) →
      renderFlow numEdges caps period drawIntermediates rows = .error .flowFileCorrupt := by
  intro numEdges caps period dI rows hbad
  cases hr : readFlowFile numEdges rows with
  | error e =>
    cases e
    simp [renderFlow, hr]
  | ok res =>
    exfalso
    obtain ⟨g1, g2, g3⟩ := readFlowFile_ok_inv numEdges rows res.1 res.2 (by rw [hr])
    rcases hbad with ⟨r, hm, hle⟩ | ⟨r, hm, hlt⟩ | hdvd
    · have := (g3 r hm).1
      omega
    · have := (g3 r hm).2
      linarith
    · exact hdvd ⟨res.2, by rw [g2]; ring⟩

/-- Witness for C5: with two edges, a one-row flow table is rejected. -/
theorem corrupt_flow_rejected_before_drawing_witness :
    ¬ ((2 : Int) ∣ ((([{ iteration := 1, flow := 0 }] : List FlowRow)).length : Int)) ∧
    renderFlow 2 [] 1 false [{ iteration := 1, flow := 0 }] = .error .flowFileCorrupt := by
  have hd : ¬ ((2 : Int) ∣ ((([{ iteration := 1, flow := 0 }] : List FlowRow)).length : Int)) := by
    norm_num
  exact ⟨hd, corrupt_flow_rejected_before_drawing 2 [] 1 false _ (Or.inr (Or.inr hd))⟩

/-- C6 counterexample: with one edge, the table whose iteration column reads
1, 3, 3 is accepted by the reading phase, although its iterations are not
contiguous (iteration 2 has no row) and iteration 3 has two rows instead of
numEdges = 1. -/
theorem flow_gap_accepted_cex :
    readFlowFile 1 gapRows = .ok ([0, 0, 0], 3) ∧
    (gapRows.filter fun r => r.iteration == 2).length ≠ 1 ∧
    (gapRows.filter fun r => r.iteration == 3).length ≠ 1 := by
  refine ⟨?_, by decide, by decide⟩
  norm_num [readFlowFile, readFlowRows, readFlowStep, gapRows]

/-- C6 amended: acceptance guarantees that every row has a positive iteration
number and a non-negative flow and that the total row count equals
lastIteration × numEdges (with the flows kept in row order); it does not
guarantee contiguity of the iteration numbers nor that each iteration has
exactly numEdges rows — a table with a gap can be accepted. -/
theorem accepted_flow_invariant :
    ∀ numEdges rows flows last, readFlowFile numEdges rows = .ok (flows, last) →
      flows = rows.map FlowRow.flow ∧
      (rows.length : Int) = last * numEdges ∧
      ∀ r ∈ rows, 0 < r.iteration ∧ 0 ≤ r.flow :=
  fun numEdges rows flows last h => readFlowFile_ok_inv numEdges rows flows last h

/-- Witness for the amended C6 on a one-row accepted table. -/
theorem accepted_flow_invariant_witness :
    readFlowFile 1 [{ iteration := 1, flow := 0 }] = .ok ([0], 1) ∧
    ([0] = ([{ iteration := 1, flow := 0 }] : List FlowRow).map FlowRow.flow ∧
      ((([{ iteration := 1, flow := 0 }] : List FlowRow).length : Int) = 1 * 1 ∧
        ∀ r ∈ ([{ iteration := 1, flow := 0 }] : List FlowRow),
          0 < r.iteration ∧ 0 ≤ r.flow)) := by
  have h : readFlowFile 1 [{ iteration := 1, flow := 0 }] = .ok ([0], 1) := by
    norm_num [readFlowFile, readFlowRows, readFlowStep]
  exact ⟨h, accepted_flow_invariant 1 _ [0] 1 h⟩

/-- The per-iteration drawing commands contain no page break. -/
theorem newPage_not_mem_iterEvents (numEdges : Nat) (caps : List Int) (flows : List ℚ)
    (firstEdge : Nat) : Event.newPage ∉ iterEvents numEdges caps flows firstEdge := by
  intro hmem
  simp only [iterEvents, List.mem_flatMap] at hmem
  obtain ⟨j, hj, hmem⟩ := hmem
  rcases List.mem_cons.mp hmem with h | h
  · exact Event.noConfusion h
  · simp only [List.mem_map] at h
    obtain ⟨e, _, he⟩ := h
    exact Event.noConfusion he

/-- Summing an indicator over a list counts the elements satisfying it. -/
theorem sum_map_indicator (l : List Nat) (p : Nat → Bool) :
    (l.map fun i => if p i then 1 else 0).sum = (l.filter p).length := by
  induction l with
  | nil => rfl
  | cons x xs ih =>
    by_cases h : p x
    · simp [h, ih, Nat.add_comm]
    · simp [h, ih]

/-- The page breaks one loop iteration contributes: exactly one when the
iteration is drawn and is not the first, none otherwise. -/
theorem count_newPage_block (numEdges : Nat) (caps : List Int) (flows : List ℚ)
    (dI : Bool) (last i : Nat) :
    List.count Event.newPage
      (if renderedIter dI last i then
        (if i ≠ 1 then [Event.newPage] else []) ++
          iterEvents numEdges caps flows ((i - 1) * numEdges)
      else []) =
    if (renderedIter dI last i && i != 1) then 1 else 0 := by
  by_cases hr : renderedIter dI last i
  · by_cases h1 : i = 1
    · subst h1
      have h0 := List.count_eq_zero.mpr
        (newPage_not_mem_iterEvents numEdges caps flows 0)
      simp [hr, h0]
    · have h0 := List.count_eq_zero.mpr
        (newPage_not_mem_iterEvents numEdges caps flows ((i - 1) * numEdges))
      simp [hr, h1, List.count_append, h0]
  · simp [hr]

/-- C8: across the flow drawing loop, a newPage is issued exactly once per
drawn iteration other than the first and for no other reason; concretely,
a run on a two-iteration flow table with one edge and without -i yields the
first iteration's commands, then exactly one newPage, then the second
iteration's commands. -/
theorem newPage_once_per_later_iteration :
    (∀ (numEdges : Nat) (caps : List Int) (flows : List ℚ) (dI : Bool) (last : Nat),
      (flowEvents numEdges caps flows dI last).count Event.newPage =
        ((iterList last).filter fun i => renderedIter dI last i && i != 1).length) ∧
    renderFlow 1 [1] 1 false
        [{ iteration := 1, flow := 0 }, { iteration := 2, flow := 0 }] =
      .ok (iterEvents 1 [1] [0, 0] 0 ++ Event.newPage :: iterEvents 1 [1] [0, 0] 1) := by
  constructor
  · intro numEdges caps flows dI last
    unfold flowEvents
    rw [List.count_flatMap]
    refine Eq.trans ?_
      (sum_map_indicator (iterList last) fun i => renderedIter dI last i && i != 1)
    congr 1
    exact List.map_congr_left fun i _ => count_newPage_block numEdges caps flows dI last i
  · have hread : readFlowFile 1
        [{ iteration := 1, flow := 0 }, { iteration := 2, flow := 0 }] = .ok ([0, 0], 2) := by
      norm_num [readFlowFile, readFlowRows, readFlowStep]
    have hcap : ([1] : List Int).map (scaleCapacity 1) = [1] := by
      norm_num [scaleCapacity, roundHalfAway]
    have hrange : iterList 2 = [1, 2] := by
      norm_num [iterList, List.range_succ]
    simp only [renderFlow, hread, hcap]
    have htn : Int.toNat 2 = 2 := rfl
    rw [htn, flowEvents, hrange]
    norm_num [List.flatMap_cons, List.flatMap_nil, renderedIter]

/-- A filter that keeps exactly one element of every block of a flatMap
collects those elements in block order. -/
theorem filter_flatMap_blocks {α β : Type} (l : List α) (f : α → List β) (p : β → Bool)
    (g : α → β) (hf : ∀ a, (f a).filter p = [g a]) :
    (l.flatMap f).filter p = l.map g := by
  induction l with
  | nil => rfl
  | cons x xs ih => simp [List.flatMap_cons, List.filter_append, hf, ih]

/-- A band's block retains exactly its color command under isColorCmd. -/
theorem filter_color_block (numEdges : Nat) (caps : List Int) (flows : List ℚ)
    (firstEdge j : Nat) :
    (Event.setColor j ::
      ((List.range numEdges).filter fun e => edgeBand caps flows firstEdge e == j).map
        Event.drawEdge).filter isColorCmd = [Event.setColor j] := by
  rw [List.filter_cons]
  have hc : isColorCmd (Event.setColor j) = true := rfl
  rw [if_pos hc, List.filter_map]
  have hfalse : (isColorCmd ∘ Event.drawEdge) = fun e : Nat => false := rfl
  rw [hfalse]
  simp

/-- The drawEdge constructor is injective. -/
theorem drawEdge_injective : Function.Injective Event.drawEdge :=
  fun a b h => by injection h

/-- Every edge's congestion band is a valid index into congestionLevels. -/
theorem edgeBand_lt_numBands (caps : List Int) (flows : List ℚ) (firstEdge e : Nat) :
    edgeBand caps flows firstEdge e < REDS_9CLASS_size - 1 := by
  have h := min_le_right
    (Int.toNat ⌊((100 / 20 : Int) : ℚ) * flows.getD (firstEdge + e) 0 /
        ((caps.getD e 0 : Int) : ℚ)⌋) (REDS_9CLASS_size - 2)
  simp only [edgeBand, congestionBand, REDS_9CLASS_size] at h ⊢
  omega

/-- The number of times one band's block draws edge e: once when e is an
edge of that band, never otherwise. -/
theorem count_drawEdge_block (numEdges : Nat) (caps : List Int) (flows : List ℚ)
    (firstEdge e j : Nat) (he : e < numEdges) :
    List.count (Event.drawEdge e)
      (Event.setColor j ::
        ((List.range numEdges).filter fun x => edgeBand caps flows firstEdge x == j).map
          Event.drawEdge) =
    if (j == edgeBand caps flows firstEdge e) then 1 else 0 := by
  rw [List.count_cons_of_ne (by exact fun h => Event.noConfusion h)]
  rw [List.count_map_of_injective _ _ drawEdge_injective]
  by_cases hj : j = edgeBand caps flows firstEdge e
  · subst hj
    have hmem : e ∈ (List.range numEdges).filter
        fun x => edgeBand caps flows firstEdge x == edgeBand caps flows firstEdge e := by
      rw [List.mem_filter]
      exact ⟨List.mem_range.mpr he, by simp⟩
    have hnd : ((List.range numEdges).filter
        fun x => edgeBand caps flows firstEdge x == edgeBand caps flows firstEdge e).Nodup :=
      (List.nodup_range numEdges).filter _
    rw [List.count_eq_one_of_mem hnd hmem]
    simp
  · have hnmem : e ∉ (List.range numEdges).filter
        fun x => edgeBand caps flows firstEdge x == j := by
      rw [List.mem_filter]
      intro hmem
      have := hmem.2
      simp at this
      exact hj this.symm
    have hb : (j == edgeBand caps flows firstEdge e) = false := by
      simp [hj]
    rw [List.count_eq_zero.mpr hnmem, hb]
    rfl

/-- A strictly ordered pair of indices picks a sublist of a range. -/
theorem pair_sublist_range (a b : Nat) :
    ∀ n, a < b → b < n → [a, b].Sublist (List.range n) := by
  intro n
  induction n with
  | zero =>
    intro _ h
    omega
  | succ m ih =>
    intro hab hbm
    rw [List.range_succ]
    by_cases h : b < m
    · exact (ih hab h).trans (List.sublist_append_left _ _)
    · have hbe : b = m := by omega
      have h1 : [a].Sublist (List.range m) := by
        rw [List.singleton_sublist, List.mem_range]
        omega
      have h2 : [b].Sublist [m] := by
        rw [hbe]
      simpa using List.Sublist.append h1 h2

/-- flatMap preserves the sublist relation on its index list. -/
theorem sublist_flatMap {β : Type} (f : Nat → List β) (l1 l2 : List Nat)
    (h : l1.Sublist l2) : (l1.flatMap f).Sublist (l2.flatMap f) := by
  induction h with
  | slnil => simp
  | cons a hs ih =>
    simp only [List.flatMap_cons]
    exact ih.trans (List.sublist_append_right _ _)
  | cons₂ a hs ih =>
    simp only [List.flatMap_cons]
    exact List.Sublist.append (List.Sublist.refl _) ih

/-- C9: within one drawn iteration the color commands are exactly one per
band, emitted in increasing band order; every edge is drawn exactly once;
and every edge of a strictly lower band is drawn before every edge of a
strictly higher band. -/
theorem bands_drawn_in_increasing_order :
    ∀ (numEdges : Nat) (caps : List Int) (flows : List ℚ) (firstEdge : Nat),
      (iterEvents numEdges caps flows firstEdge).filter isColorCmd =
        (List.range (REDS_9CLASS_size - 1)).map Event.setColor ∧
      (∀ e, e < numEdges →
        (iterEvents numEdges caps flows firstEdge).count (Event.drawEdge e) = 1) ∧
      (∀ e1 e2, e1 < numEdges → e2 < numEdges →
        edgeBand caps flows firstEdge e1 < edgeBand caps flows firstEdge e2 →
        [Event.drawEdge e1, Event.drawEdge e2].Sublist
          (iterEvents numEdges caps flows firstEdge)) := by
  intro numEdges caps flows firstEdge
  refine ⟨?_, ?_, ?_⟩
  · exact filter_flatMap_blocks _ _ _ _
      (filter_color_block numEdges caps flows firstEdge)
  · intro e he
    unfold iterEvents
    rw [List.count_flatMap]
    have hone : ((List.range (REDS_9CLASS_size - 1)).map
        fun j => if (j == edgeBand caps flows firstEdge e) then 1 else 0).sum = 1 := by
      rw [sum_map_indicator, ← List.countP_eq_length_filter]
      have hcp : List.countP (fun j => j == edgeBand caps flows firstEdge e)
          (List.range (REDS_9CLASS_size - 1)) =
          List.count (edgeBand caps flows firstEdge e)
            (List.range (REDS_9CLASS_size - 1)) := rfl
      rw [hcp]
      exact List.count_eq_one_of_mem (List.nodup_range _)
        (List.mem_range.mpr (edgeBand_lt_numBands caps flows firstEdge e))
    refine Eq.trans ?_ hone
    congr 1
    exact List.map_congr_left fun j _ =>
      count_drawEdge_block numEdges caps flows firstEdge e j he
  · intro e1 e2 he1 he2 hlt
    have hb2 := edgeBand_lt_numBands caps flows firstEdge e2
    have hpair := pair_sublist_range (edgeBand caps flows firstEdge e1)
      (edgeBand caps flows firstEdge e2) (REDS_9CLASS_size - 1) hlt hb2
    have hsub := sublist_flatMap
      (fun j => Event.setColor j ::
        ((List.range numEdges).filter fun x => edgeBand caps flows firstEdge x == j).map
          Event.drawEdge) _ _ hpair
    have hmem1 : Event.drawEdge e1 ∈ Event.setColor (edgeBand caps flows firstEdge e1) ::
        ((List.range numEdges).filter
          fun x => edgeBand caps flows firstEdge x == edgeBand caps flows firstEdge e1).map
          Event.drawEdge := by
      refine List.mem_cons_of_mem _ (List.mem_map_of_mem _ ?_)
      rw [List.mem_filter]
      exact ⟨List.mem_range.mpr he1, by simp⟩
    have hmem2 : Event.drawEdge e2 ∈ Event.setColor (edgeBand caps flows firstEdge e2) ::
        ((List.range numEdges).filter
          fun x => edgeBand caps flows firstEdge x == edgeBand caps flows firstEdge e2).map
          Event.drawEdge := by
      refine List.mem_cons_of_mem _ (List.mem_map_of_mem _ ?_)
      rw [List.mem_filter]
      exact ⟨List.mem_range.mpr he2, by simp⟩
    have hstep : [Event.drawEdge e1, Event.drawEdge e2].Sublist
        ([edgeBand caps flows firstEdge e1, edgeBand caps flows firstEdge e2].flatMap
          fun j => Event.setColor j ::
            ((List.range numEdges).filter fun x => edgeBand caps flows firstEdge x == j).map
              Event.drawEdge) := by
      simp only [List.flatMap_cons, List.flatMap_nil, List.append_nil]
      exact List.Sublist.append (List.singleton_sublist.mpr hmem1)
        (List.singleton_sublist.mpr hmem2)
    exact hstep.trans hsub

/-- Witness for C9 on two edges of bands 0 and 7. -/
theorem bands_drawn_in_increasing_order_witness :
    (0 : Nat) < 2 ∧ (1 : Nat) < 2 ∧
    edgeBand [1, 1] [0, 2] 0 0 < edgeBand [1, 1] [0, 2] 0 1 ∧
    (iterEvents 2 [1, 1] [0, 2] 0).count (Event.drawEdge 0) = 1 ∧
    [Event.drawEdge 0, Event.drawEdge 1].Sublist (iterEvents 2 [1, 1] [0, 2] 0) := by
  have hb1 : edgeBand [1, 1] [0, 2] 0 0 = 0 := by
    norm_num [edgeBand, congestionBand, REDS_9CLASS_size, List.getD]
  have hb2 : edgeBand [1, 1] [0, 2] 0 1 = 7 := by
    norm_num [edgeBand, congestionBand, REDS_9CLASS_size, List.getD]
  have hlt : edgeBand [1, 1] [0, 2] 0 0 < edgeBand [1, 1] [0, 2] 0 1 := by
    rw [hb1, hb2]
    norm_num
  exact ⟨by norm_num, by norm_num, hlt,
    (bands_drawn_in_increasing_order 2 [1, 1] [0, 2] 0).2.1 0 (by norm_num),
    (bands_drawn_in_increasing_order 2 [1, 1] [0, 2] 0).2.2 0 1 (by norm_num) (by norm_num) hlt⟩

end RoutingFramework
